import Mathlib

/-!
Shallow embedding of the text-metrics engine of
`src/GeometricObjects.py` (`StringCounterApp.update_count`,
`StringCounterApp.revert_string`, `StringCounterApp.clean_string`).
Text is modelled as `List Char`; the mode is the string held by the
Tk radio variable (`"Letters" | "Words" | "Sentences"`), exactly as the
source dispatches on it.  Regex character classes are modelled by the
ASCII character sets the spec fixes (`\d` = `0-9`, `[a-zA-Z]`,
`[.?!]`, `\s` = ASCII whitespace).
-/

namespace TextMetrics

/-- ASCII whitespace, the character class stripped by Python `str.strip()`
and matched by `\s` (restricted to ASCII, as the whole model is). -/
def pyIsSpace (c : Char) : Bool :=
  c = ' ' || c = '\t' || c = '\n' || c = '\x0d' || c = '\x0b' || c = '\x0c'

/-- The regex class `\d`: ASCII digits `0`-`9`. -/
def isDigitChar (c : Char) : Bool :=
  '0' ≤ c && c ≤ '9'

/-- The regex class `[a-zA-Z]`. -/
def isAsciiAlpha (c : Char) : Bool :=
  ('a' ≤ c && c ≤ 'z') || ('A' ≤ c && c ≤ 'Z')

/-- The regex class `[.?!]` of sentence terminators. -/
def isTerm (c : Char) : Bool :=
  c = '.' || c = '?' || c = '!'

/-- Python `str.strip()`: drop leading and trailing whitespace. -/
def pyStrip (l : List Char) : List Char :=
  ((l.dropWhile pyIsSpace).reverse.dropWhile pyIsSpace).reverse

/-- Model of `re.sub(r'\.{2,}', '.', text)`: every maximal run of consecutive
dots becomes a single dot (runs of length one are unchanged by the
substitution, so collapsing every run to one dot is the same map). -/
def collapseDots : List Char → List Char
  | [] => []
  | [c] => [c]
  | c₁ :: c₂ :: rest =>
    if c₁ = '.' && c₂ = '.' then collapseDots (c₂ :: rest)
    else c₁ :: collapseDots (c₂ :: rest)

/-- Model of `re.split(r'[.?!]', text)`: split at every terminator; terminators
are removed, empty segments are kept. -/
def splitTerm : List Char → List (List Char)
  | [] => [[]]
  | c :: rest =>
    if isTerm c then [] :: splitTerm rest
    else (splitTerm rest).modifyHead (c :: ·)

/-- One step of `pySplitWs`: attach the non-whitespace character `c` to the
tokens of the remaining text; `rest` is that remaining text, consulted to
decide whether `c` ends its token (next char is whitespace or end). -/
def addTok (c : Char) (segs : List (List Char)) (rest : List Char) : List (List Char) :=
  match segs, rest with
  | [], _ => [[c]]
  | t :: ts, [] => [[c]] ++ t :: ts
  | t :: ts, d :: _ => if pyIsSpace d then [c] :: t :: ts else (c :: t) :: ts

/-- Python `str.split()` with no separator: split on runs of whitespace,
producing no empty tokens. -/
def pySplitWs : List Char → List (List Char)
  | [] => []
  | c :: rest =>
    if pyIsSpace c then pySplitWs rest
    else addTok c (pySplitWs rest) rest

/-- Test that `re.fullmatch(r'\d+', word)` succeeds: the token is one or more
ASCII digits and nothing else. -/
def isAllDigits (w : List Char) : Bool :=
  !w.isEmpty && w.all isDigitChar

/-- The provisional sentence count of `update_count`:
`valid_segments = [s.strip() for s in re.split(r'[.?!]', re.sub(r'\.{2,}', '.', t)) if s.strip()]`,
then `len(valid_segments)`. -/
def sentencesProvisional (l : List Char) : Nat :=
  (((splitTerm (collapseDots l)).map pyStrip).filter (fun s => !s.isEmpty)).length

/-- Model of `bool(re.search(r'[.?!]\s*$', text))`: after ignoring trailing
whitespace the text ends with a terminator. -/
def endsWithTerminator (l : List Char) : Bool :=
  match l.reverse.dropWhile pyIsSpace with
  | [] => false
  | c :: _ => isTerm c

/-- The result record: the mode's primary count and the unconditional
digit count (rendered as "Numbers Count"). -/
structure MetricsResult where
  primaryCount : Int
  digitCount : Int
deriving Repr, DecidableEq

/-- Body of `update_count` after `text = ...get(...).strip()`: the source
initialises `count = 0`, runs the `if not text / elif mode == ...` chain
(with no `else`, so an unrecognised mode leaves `count = 0`), and computes
`number_count = len(re.findall(r'\d', text))` unconditionally. -/
def update_count_core (text : List Char) (mode : String) : MetricsResult :=
  let number_count : Int := text.countP isDigitChar
  let count : Int :=
    if text.isEmpty then 0
    else if mode = "Letters" then
      text.countP isAsciiAlpha
    else if mode = "Words" then
      ((pySplitWs text).filter (fun w => !isAllDigits w)).length
    else if mode = "Sentences" then
      let prov : Int := sentencesProvisional text
      let corrected : Int :=
        if 0 < prov && !endsWithTerminator text then prov - 1 else prov
      max 0 corrected
    else 0
  ⟨count, number_count⟩

/-- Embedding of `StringCounterApp.update_count`: the raw widget text is stripped
(`.strip()`) before any counting. -/
def update_count (raw : List Char) (mode : String) : MetricsResult :=
  update_count_core (pyStrip raw) mode

/-- Embedding of `StringCounterApp.revert_string`: strip the widget text; if the result
is non-empty replace the text with its character-reversed form, otherwise
leave the widget untouched. -/
def revert_string (raw : List Char) : List Char :=
  let text := pyStrip raw
  if text.isEmpty then raw else text.reverse

/-- Embedding of `StringCounterApp.clean_string`: the text area is cleared to the
empty string regardless of its prior contents. -/
def clean_string (_raw : List Char) : List Char := []

/-- Trailing-segment rewrite used by the sentence-split lemmas. -/
def mapLast (f : List Char → List Char) : List (List Char) → List (List Char)
  | [] => []
  | [s] => [f s]
  | s :: t :: rest => s :: mapLast f (t :: rest)

/-! ### Character-class facts -/

lemma ws_not_dot {c : Char} (h : pyIsSpace c = true) : (c = '.') = False := by
  simp only [pyIsSpace, Bool.or_eq_true, decide_eq_true_eq] at h
  rcases h with ((((h | h) | h) | h) | h) | h <;> subst h <;> simp

lemma ws_not_term {c : Char} (h : pyIsSpace c = true) : isTerm c = false := by
  simp only [pyIsSpace, Bool.or_eq_true, decide_eq_true_eq] at h
  rcases h with ((((h | h) | h) | h) | h) | h <;> subst h <;> rfl

lemma ws_not_digit {c : Char} (h : pyIsSpace c = true) : isDigitChar c = false := by
  simp only [pyIsSpace, Bool.or_eq_true, decide_eq_true_eq] at h
  rcases h with ((((h | h) | h) | h) | h) | h <;> subst h <;> rfl

lemma ws_not_alpha {c : Char} (h : pyIsSpace c = true) : isAsciiAlpha c = false := by
  simp only [pyIsSpace, Bool.or_eq_true, decide_eq_true_eq] at h
  rcases h with ((((h | h) | h) | h) | h) | h <;> subst h <;> rfl

/-! ### dropWhile and strip helpers -/

lemma dropWhile_all {p : Char → Bool} {w : List Char} (h : ∀ c ∈ w, p c = true) :
    w.dropWhile p = [] :=
  List.dropWhile_eq_nil_iff.mpr h

lemma dropWhile_append_all {p : Char → Bool} {w l : List Char}
    (h : ∀ c ∈ w, p c = true) : (w ++ l).dropWhile p = l.dropWhile p := by
  rw [List.dropWhile_append, dropWhile_all h]
  rfl

/-- The head of a `dropWhile` result fails the predicate. -/
lemma dropWhile_head_false {p : Char → Bool} {l : List Char} {c : Char} {t : List Char}
    (h : l.dropWhile p = c :: t) : p c = false := by
  induction l with
  | nil => simp at h
  | cons d rest ih =>
    rw [List.dropWhile_cons] at h
    by_cases hd : p d = true
    · exact ih (by simpa [hd] using h)
    · obtain ⟨rfl, -⟩ := List.cons.injEq .. ▸ (by simpa [hd] using h : d :: rest = c :: t)
      simpa using hd

lemma dropWhile_idem {p : Char → Bool} (l : List Char) :
    (l.dropWhile p).dropWhile p = l.dropWhile p := by
  cases h : l.dropWhile p with
  | nil => rfl
  | cons c t => rw [List.dropWhile_cons, dropWhile_head_false h]; simp

lemma pyStrip_append_left {w l : List Char} (h : ∀ c ∈ w, pyIsSpace c = true) :
    pyStrip (w ++ l) = pyStrip l := by
  unfold pyStrip
  rw [dropWhile_append_all h]

lemma pyStrip_append_right {w l : List Char} (h : ∀ c ∈ w, pyIsSpace c = true) :
    pyStrip (l ++ w) = pyStrip l := by
  unfold pyStrip
  rw [List.dropWhile_append]
  cases hd : (l.dropWhile pyIsSpace).isEmpty with
  | true =>
    rw [List.isEmpty_iff] at hd
    simp [hd, dropWhile_all h]
  | false =>
    simp only [hd, Bool.false_eq_true, if_false]
    rw [List.reverse_append, dropWhile_append_all (by intro c hc; exact h c (by simpa using hc))]

lemma pyStrip_sandwich {w₁ w₂ l : List Char}
    (h₁ : ∀ c ∈ w₁, pyIsSpace c = true) (h₂ : ∀ c ∈ w₂, pyIsSpace c = true) :
    pyStrip (w₁ ++ l ++ w₂) = pyStrip l := by
  rw [List.append_assoc, pyStrip_append_left h₁, pyStrip_append_right h₂]

/-- Every list is its strip surrounded by whitespace. -/
lemma pyStrip_decomp (l : List Char) :
    ∃ w₁ w₂, (∀ c ∈ w₁, pyIsSpace c = true) ∧ (∀ c ∈ w₂, pyIsSpace c = true) ∧
      l = w₁ ++ pyStrip l ++ w₂ := by
  refine ⟨l.takeWhile pyIsSpace, ((l.dropWhile pyIsSpace).reverse.takeWhile pyIsSpace).reverse,
    fun c hc => List.mem_takeWhile_imp hc,
    fun c hc => List.mem_takeWhile_imp (List.mem_reverse.mp hc), ?_⟩
  conv_lhs => rw [← List.takeWhile_append_dropWhile pyIsSpace l]
  rw [List.append_assoc]
  congr 1
  conv_lhs => rw [← List.reverse_reverse (l.dropWhile pyIsSpace),
    ← List.takeWhile_append_dropWhile pyIsSpace (l.dropWhile pyIsSpace).reverse]
  rw [List.reverse_append]
  rfl

lemma countP_pyStrip {q : Char → Bool} (hq : ∀ c, pyIsSpace c = true → q c = false)
    (l : List Char) : (pyStrip l).countP q = l.countP q := by
  obtain ⟨w₁, w₂, h₁, h₂, hl⟩ := pyStrip_decomp l
  conv_rhs => rw [hl]
  rw [List.countP_append, List.countP_append]
  have z₁ : w₁.countP q = 0 := List.countP_eq_zero.mpr fun c hc => by simp [hq c (h₁ c hc)]
  have z₂ : w₂.countP q = 0 := List.countP_eq_zero.mpr fun c hc => by simp [hq c (h₂ c hc)]
  omega

/-! ### collapseDots lemmas -/

lemma collapseDots_no_dots {w : List Char} (h : ∀ c ∈ w, (c = '.') = False) :
    collapseDots w = w := by
  induction w with
  | nil => rfl
  | cons c rest ih =>
    cases rest with
    | nil => rfl
    | cons d rest' =>
      have hc : (c = '.') = False := h c (by simp)
      rw [collapseDots]
      simp only [hc, decide_False, Bool.false_and, Bool.false_eq_true, if_false]
      rw [ih fun x hx => h x (by simp [hx])]

lemma collapseDots_append_left {w m : List Char} (h : ∀ c ∈ w, (c = '.') = False) :
    collapseDots (w ++ m) = w ++ collapseDots m := by
  induction w with
  | nil => rfl
  | cons c w' ih =>
    have hc : (c = '.') = False := h c (by simp)
    have ih' := ih fun x hx => h x (by simp [hx])
    cases hw : w' ++ m with
    | nil =>
      obtain ⟨rfl, rfl⟩ := List.append_eq_nil.mp hw
      rfl
    | cons d t =>
      show collapseDots (c :: (w' ++ m)) = _
      rw [hw, collapseDots]
      simp only [hc, decide_False, Bool.false_and, Bool.false_eq_true, if_false]
      rw [← hw, ih']
      rfl

lemma collapseDots_append_right {w m : List Char} (h : ∀ c ∈ w, (c = '.') = False) :
    collapseDots (m ++ w) = collapseDots m ++ w := by
  induction m with
  | nil => simpa using collapseDots_no_dots h
  | cons c m' ih =>
    cases m' with
    | nil =>
      cases w with
      | nil => rfl
      | cons d w' =>
        have hd : (d = '.') = False := h d (by simp)
        show collapseDots (c :: d :: w') = [c] ++ d :: w'
        rw [collapseDots]
        simp only [hd, decide_False, Bool.and_false, Bool.false_eq_true, if_false]
        rw [collapseDots_no_dots fun x hx => h x (by simp [hx])]
        rfl
    | cons c₂ m'' =>
      show collapseDots (c :: c₂ :: (m'' ++ w)) = collapseDots (c :: c₂ :: m'') ++ w
      rw [collapseDots, collapseDots]
      by_cases hcc : (c = '.' && c₂ = '.') = true
      · simp only [hcc, if_true]
        exact ih
      · simp only [hcc, Bool.false_eq_true, if_false, List.cons_append]
        exact congrArg (c :: ·) ih

/-! ### splitTerm lemmas -/

lemma splitTerm_ne_nil (l : List Char) : splitTerm l ≠ [] := by
  induction l with
  | nil => simp [splitTerm]
  | cons c rest ih =>
    rw [splitTerm]
    by_cases hc : isTerm c = true
    · simp [hc]
    · simp only [hc, if_false]
      cases h : splitTerm rest with
      | nil => exact absurd h ih
      | cons s ss => simp [List.modifyHead_cons]

lemma splitTerm_no_term {w : List Char} (h : ∀ c ∈ w, isTerm c = false) :
    splitTerm w = [w] := by
  induction w with
  | nil => rfl
  | cons c w' ih =>
    rw [splitTerm]
    have hc : isTerm c = false := h c (by simp)
    simp only [hc, Bool.false_eq_true, if_false]
    rw [ih fun x hx => h x (by simp [hx]), List.modifyHead_cons]

lemma splitTerm_append_left {w m : List Char} (h : ∀ c ∈ w, isTerm c = false) :
    splitTerm (w ++ m) = (splitTerm m).modifyHead (w ++ ·) := by
  induction w with
  | nil =>
    cases hm : splitTerm m with
    | nil => exact absurd hm (splitTerm_ne_nil m)
    | cons s ss => simp [hm, List.modifyHead_cons]
  | cons c w' ih =>
    show splitTerm (c :: (w' ++ m)) = _
    rw [splitTerm]
    have hc : isTerm c = false := h c (by simp)
    simp only [hc, Bool.false_eq_true, if_false]
    rw [ih fun x hx => h x (by simp [hx])]
    cases hm : splitTerm m with
    | nil => exact absurd hm (splitTerm_ne_nil m)
    | cons s ss => simp [List.modifyHead_cons]

lemma splitTerm_append_right {w m : List Char} (h : ∀ c ∈ w, isTerm c = false) :
    splitTerm (m ++ w) = mapLast (· ++ w) (splitTerm m) := by
  induction m with
  | nil =>
    rw [List.nil_append, splitTerm_no_term h]
    rfl
  | cons c m' ih =>
    show splitTerm (c :: (m' ++ w)) = mapLast (· ++ w) (splitTerm (c :: m'))
    rw [splitTerm, splitTerm, ih]
    by_cases hc : isTerm c = true
    · simp only [hc, if_true]
      cases hm : splitTerm m' with
      | nil => exact absurd hm (splitTerm_ne_nil m')
      | cons s ss => rfl
    · simp only [hc, if_false]
      cases hm : splitTerm m' with
      | nil => exact absurd hm (splitTerm_ne_nil m')
      | cons s ss =>
        cases ss with
        | nil => simp [mapLast, List.modifyHead_cons]
        | cons t ts => simp [mapLast, List.modifyHead_cons]

/-! ### Invariance of the provisional sentence count under outer whitespace -/

lemma map_pyStrip_modifyHead {w : List Char} (h : ∀ c ∈ w, pyIsSpace c = true)
    (segs : List (List Char)) :
    ((segs.modifyHead (w ++ ·)).map pyStrip) = segs.map pyStrip := by
  cases segs with
  | nil => rfl
  | cons s ss => simp [List.modifyHead_cons, pyStrip_append_left h]

lemma map_pyStrip_mapLast {w : List Char} (h : ∀ c ∈ w, pyIsSpace c = true)
    (segs : List (List Char)) :
    ((mapLast (· ++ w) segs).map pyStrip) = segs.map pyStrip := by
  induction segs with
  | nil => rfl
  | cons s ss ih =>
    cases ss with
    | nil => simp [mapLast, pyStrip_append_right h]
    | cons t ts =>
      show (s :: mapLast (· ++ w) (t :: ts)).map pyStrip = _
      simp only [List.map_cons]
      rw [show (mapLast (· ++ w) (t :: ts)).map pyStrip = (t :: ts).map pyStrip from ih]
      simp

lemma ws_no_dot_chars {w : List Char} (h : ∀ c ∈ w, pyIsSpace c = true) :
    ∀ c ∈ w, (c = '.') = False :=
  fun c hc => ws_not_dot (h c hc)

lemma ws_no_term_chars {w : List Char} (h : ∀ c ∈ w, pyIsSpace c = true) :
    ∀ c ∈ w, isTerm c = false :=
  fun c hc => ws_not_term (h c hc)

lemma sentencesProvisional_append_left {w l : List Char}
    (h : ∀ c ∈ w, pyIsSpace c = true) :
    sentencesProvisional (w ++ l) = sentencesProvisional l := by
  unfold sentencesProvisional
  rw [collapseDots_append_left (ws_no_dot_chars h),
    splitTerm_append_left (ws_no_term_chars h), map_pyStrip_modifyHead h]

lemma sentencesProvisional_append_right {w l : List Char}
    (h : ∀ c ∈ w, pyIsSpace c = true) :
    sentencesProvisional (l ++ w) = sentencesProvisional l := by
  unfold sentencesProvisional
  rw [collapseDots_append_right (ws_no_dot_chars h),
    splitTerm_append_right (ws_no_term_chars h), map_pyStrip_mapLast h]

lemma sentencesProvisional_pyStrip (l : List Char) :
    sentencesProvisional (pyStrip l) = sentencesProvisional l := by
  obtain ⟨w₁, w₂, h₁, h₂, hl⟩ := pyStrip_decomp l
  conv_rhs => rw [hl]
  rw [List.append_assoc, sentencesProvisional_append_left h₁,
    sentencesProvisional_append_right h₂]

/-! ### Invariance of the terminator test under outer whitespace -/

lemma endsWithTerminator_append_right {w l : List Char}
    (h : ∀ c ∈ w, pyIsSpace c = true) :
    endsWithTerminator (l ++ w) = endsWithTerminator l := by
  unfold endsWithTerminator
  rw [List.reverse_append,
    dropWhile_append_all (fun c hc => h c (by simpa using hc))]

lemma endsWithTerminator_append_left {w l : List Char}
    (h : ∀ c ∈ w, pyIsSpace c = true) :
    endsWithTerminator (w ++ l) = endsWithTerminator l := by
  unfold endsWithTerminator
  rw [List.reverse_append, List.dropWhile_append]
  by_cases hd : (l.reverse.dropWhile pyIsSpace).isEmpty = true
  · rw [if_pos hd, dropWhile_all (fun c hc => h c (by simpa using hc))]
    rw [List.isEmpty_iff] at hd
    rw [hd]
  · rw [if_neg hd]
    cases hc : l.reverse.dropWhile pyIsSpace with
    | nil => exact absurd (by rw [hc] ; rfl) hd
    | cons c t => rfl

lemma endsWithTerminator_pyStrip (l : List Char) :
    endsWithTerminator (pyStrip l) = endsWithTerminator l := by
  obtain ⟨w₁, w₂, h₁, h₂, hl⟩ := pyStrip_decomp l
  conv_rhs => rw [hl]
  rw [List.append_assoc, endsWithTerminator_append_left h₁,
    endsWithTerminator_append_right h₂]

/-! ### pySplitWs lemmas -/

lemma pySplitWs_all_ws {w : List Char} (h : ∀ c ∈ w, pyIsSpace c = true) :
    pySplitWs w = [] := by
  induction w with
  | nil => rfl
  | cons c w' ih =>
    rw [pySplitWs, if_pos (h c (by simp))]
    exact ih fun x hx => h x (by simp [hx])

lemma pySplitWs_append_left {w l : List Char} (h : ∀ c ∈ w, pyIsSpace c = true) :
    pySplitWs (w ++ l) = pySplitWs l := by
  induction w with
  | nil => rfl
  | cons c w' ih =>
    show pySplitWs (c :: (w' ++ l)) = _
    rw [pySplitWs, if_pos (h c (by simp))]
    exact ih fun x hx => h x (by simp [hx])

lemma pySplitWs_append_right {w l : List Char} (h : ∀ c ∈ w, pyIsSpace c = true) :
    pySplitWs (l ++ w) = pySplitWs l := by
  induction l with
  | nil => simpa using pySplitWs_all_ws h
  | cons c m ih =>
    show pySplitWs (c :: (m ++ w)) = pySplitWs (c :: m)
    rw [pySplitWs, pySplitWs]
    by_cases hc : pyIsSpace c = true
    · rw [if_pos hc, if_pos hc]
      exact ih
    · rw [if_neg hc, if_neg hc, ih]
      cases hm : pySplitWs m with
      | nil => rfl
      | cons t ts =>
        cases m with
        | nil => rw [pySplitWs] at hm; exact absurd hm (by simp)
        | cons d m' => rfl

lemma pySplitWs_pyStrip (l : List Char) : pySplitWs (pyStrip l) = pySplitWs l := by
  obtain ⟨w₁, w₂, h₁, h₂, hl⟩ := pyStrip_decomp l
  conv_rhs => rw [hl]
  rw [List.append_assoc, pySplitWs_append_left h₁, pySplitWs_append_right h₂]

lemma pySplitWs_tokens_ne_nil (l : List Char) : ∀ t ∈ pySplitWs l, t ≠ [] := by
  induction l with
  | nil => intro t ht; simp [pySplitWs] at ht
  | cons c rest ih =>
    intro t ht
    rw [pySplitWs] at ht
    by_cases hc : pyIsSpace c = true
    · rw [if_pos hc] at ht
      exact ih t ht
    · rw [if_neg hc] at ht
      rcases hr : pySplitWs rest with - | ⟨s, ss⟩ <;> rw [hr] at ht
      · rcases rest with - | ⟨d, r'⟩ <;> simp [addTok] at ht <;> simp [ht]
      · rcases rest with - | ⟨d, r'⟩
        · simp [pySplitWs] at hr
        · rw [addTok] at ht
          by_cases hd : pyIsSpace d = true
          · rw [if_pos hd] at ht
            rcases List.mem_cons.mp ht with h1 | h2
            · simp [h1]
            · exact ih t (by rw [hr]; exact h2)
          · rw [if_neg hd] at ht
            rcases List.mem_cons.mp ht with h1 | h2
            · simp [h1]
            · exact ih t (by rw [hr]; simp [h2])

/-! ### Strip of a reversed stripped list (revert behaviour) -/

/-- A stripped list is a prefix of the left-stripped list. -/
lemma pyStrip_prefix_dropWhile (l : List Char) :
    pyStrip l <+: l.dropWhile pyIsSpace := by
  show ((l.dropWhile pyIsSpace).reverse.dropWhile pyIsSpace).reverse <+: l.dropWhile pyIsSpace
  have h1 : (l.dropWhile pyIsSpace).reverse.dropWhile pyIsSpace <:+
      (l.dropWhile pyIsSpace).reverse := List.dropWhile_suffix _
  have h2 := List.reverse_prefix.mpr h1
  rwa [List.reverse_reverse] at h2

/-- A stripped list has no leading whitespace. -/
lemma dropWhile_pyStrip (l : List Char) :
    (pyStrip l).dropWhile pyIsSpace = pyStrip l := by
  cases hz : pyStrip l with
  | nil => simp
  | cons c t =>
    obtain ⟨r, hr⟩ := pyStrip_prefix_dropWhile l
    rw [hz] at hr
    have hcw : pyIsSpace c = false := dropWhile_head_false (l := l)
      (show l.dropWhile pyIsSpace = c :: (t ++ r) from hr.symm)
    rw [List.dropWhile_cons, hcw]
    simp

/-- The reverse of a stripped list has no leading whitespace either. -/
lemma dropWhile_reverse_pyStrip (l : List Char) :
    (pyStrip l).reverse.dropWhile pyIsSpace = (pyStrip l).reverse := by
  have hrev : (pyStrip l).reverse = (l.dropWhile pyIsSpace).reverse.dropWhile pyIsSpace := by
    unfold pyStrip
    rw [List.reverse_reverse]
  rw [hrev]
  exact dropWhile_idem _

/-- Stripping the reverse of a stripped list is the identity. -/
lemma pyStrip_reverse_pyStrip (l : List Char) :
    pyStrip ((pyStrip l).reverse) = (pyStrip l).reverse := by
  show (((pyStrip l).reverse.dropWhile pyIsSpace).reverse.dropWhile pyIsSpace).reverse =
    (pyStrip l).reverse
  rw [dropWhile_reverse_pyStrip, List.reverse_reverse, dropWhile_pyStrip]

/-! ### Evaluation of the branches of update_count -/

lemma digitCount_eq (raw : List Char) (mode : String) :
    (update_count raw mode).digitCount = (raw.countP isDigitChar : Int) := by
  show ((pyStrip raw).countP isDigitChar : Int) = _
  rw [countP_pyStrip (fun c h => ws_not_digit h)]

lemma countP_zero_of_strip_nil {q : Char → Bool} (hq : ∀ c, pyIsSpace c = true → q c = false)
    {raw : List Char} (he : pyStrip raw = []) : raw.countP q = 0 := by
  rw [← countP_pyStrip hq raw, he]
  rfl

lemma letters_primary_eq (raw : List Char) :
    (update_count raw "Letters").primaryCount = (raw.countP isAsciiAlpha : Int) := by
  unfold update_count update_count_core
  by_cases he : (pyStrip raw).isEmpty = true
  · rw [List.isEmpty_iff] at he
    simp [he, countP_zero_of_strip_nil (fun c h => ws_not_alpha h) he]
  · simp [he, countP_pyStrip (fun c h => ws_not_alpha h)]

lemma words_primary_eq (raw : List Char) :
    (update_count raw "Words").primaryCount =
      (((pySplitWs raw).filter (fun w => !isAllDigits w)).length : Int) := by
  unfold update_count update_count_core
  by_cases he : (pyStrip raw).isEmpty = true
  · rw [List.isEmpty_iff] at he
    have hsp : pySplitWs raw = [] := by rw [← pySplitWs_pyStrip raw, he]; rfl
    simp [he, hsp]
  · simp [he, pySplitWs_pyStrip]

lemma sentences_primary_eq (raw : List Char) :
    (update_count raw "Sentences").primaryCount =
      max 0 (if 0 < (sentencesProvisional raw : Int) && !endsWithTerminator raw
        then (sentencesProvisional raw : Int) - 1 else (sentencesProvisional raw : Int)) := by
  unfold update_count update_count_core
  by_cases he : (pyStrip raw).isEmpty = true
  · rw [List.isEmpty_iff] at he
    have hp : sentencesProvisional raw = 0 := by
      rw [← sentencesProvisional_pyStrip raw, he]
      rfl
    simp [he, hp]
  · simp [he, sentencesProvisional_pyStrip, endsWithTerminator_pyStrip]

/-! ### The claims -/

/-- Claim C1: in Sentences mode the provisional count used by
`update_count` (computed on the stripped widget text) equals, for every
input text, the count obtained by exactly the claimed steps on that
text: collapse every maximal run of two or more dots to a single dot,
split at every `.`, `?` or `!`, trim each segment, and count the
segments that remain non-empty. -/
theorem C1_sentences_provisional_pipeline (text : List Char) :
    sentencesProvisional (pyStrip text) =
      (((splitTerm (collapseDots text)).map pyStrip).filter (fun s => !s.isEmpty)).length := by
  rw [sentencesProvisional_pyStrip]
  rfl

/-- Claim C4: for every input and every mode, `digitCount` equals the
number of ASCII digit characters anywhere in the input (each character
counted once, via `countP`), is non-negative, and does not depend on the
mode. -/
theorem C4_digit_count (text : List Char) (mode : String) :
    (update_count text mode).digitCount = (text.countP isDigitChar : Int) ∧
      0 ≤ (update_count text mode).digitCount ∧
      (∀ mode₂ : String, (update_count text mode₂).digitCount =
        (update_count text mode).digitCount) := by
  refine ⟨digitCount_eq text mode, ?_, fun mode₂ => ?_⟩
  · rw [digitCount_eq]
    exact Int.natCast_nonneg _
  · rw [digitCount_eq, digitCount_eq]

/-- Claim C5: in Letters mode the primary count equals the number of
characters in the ranges a-z or A-Z anywhere in the text (so non-ASCII
letters are not counted), and `compute("abc123XYZ", Letters)` yields 6. -/
theorem C5_letters_count (text : List Char) :
    (update_count text "Letters").primaryCount = (text.countP isAsciiAlpha : Int) ∧
      (update_count ( "abc123XYZ".toList) "Letters").primaryCount = 6 := by
  exact ⟨letters_primary_eq text, by decide⟩

/-- Claim C3: in Words mode the text splits on whitespace runs into
non-empty tokens, a token is excluded exactly when it is entirely ASCII
digits, and the two cited examples hold. -/
theorem C3_words_count (text : List Char) :
    (update_count text "Words").primaryCount =
        (((pySplitWs text).filter (fun w => !isAllDigits w)).length : Int) ∧
      (∀ t ∈ pySplitWs text, t ≠ []) ∧
      (update_count ( "123 456".toList) "Words").primaryCount = 0 ∧
      (update_count ( "3.14 is pi".toList) "Words").primaryCount = 3 := by
  exact ⟨words_primary_eq text, pySplitWs_tokens_ne_nil text, by decide, by decide⟩

/-- Arithmetic core of the trailing-segment correction. -/
lemma max_correction_iff (n : Nat) (b : Bool) :
    max 0 (if 0 < (n : Int) && !b then (n : Int) - 1 else (n : Int)) = (n : Int) - 1 ↔
      (b = false ∧ 0 < n) := by
  cases b
  · by_cases hpos : 0 < n
    · rw [Bool.not_false, Bool.and_true, if_pos (decide_eq_true (by exact_mod_cast hpos))]
      exact ⟨fun _ => ⟨rfl, hpos⟩, fun _ => by omega⟩
    · rw [Bool.not_false, Bool.and_true,
        if_neg (fun h => hpos (by exact_mod_cast of_decide_eq_true h))]
      exact ⟨fun h => absurd h (by omega), fun h => absurd h.2 hpos⟩
  · rw [Bool.not_true, Bool.and_false, if_neg (by simp)]
    exact ⟨fun h => absurd h (by omega), fun h => by simp at h⟩

/-- Claim C2: in Sentences mode the final count equals the provisional
count minus one exactly when the original text does not end with a
terminator optionally followed by whitespace and the provisional count
is positive; the result is clamped at zero and hence never negative. -/
theorem C2_sentences_final_correction (text : List Char) :
    ((update_count text "Sentences").primaryCount =
        (sentencesProvisional text : Int) - 1 ↔
      (endsWithTerminator text = false ∧ 0 < sentencesProvisional text)) ∧
      0 ≤ (update_count text "Sentences").primaryCount := by
  rw [sentences_primary_eq]
  exact ⟨max_correction_iff (sentencesProvisional text) (endsWithTerminator text),
    le_max_left 0 _⟩

/-- Claim C6 counterexample: for the unrecognised mode "Bogus" the source
raises nothing — the `if/elif` chain of `update_count` has no `else`, so
the function returns normally with the primary count silently left at its
initialisation value 0 (the digit count is still computed): no
`InvalidMode` error is signalled. -/
theorem C6_counterexample_silent_default :
    update_count ( "hello7".toList) "Bogus" = ⟨0, 1⟩ := by decide

/-- Claim C6 as amended: `update_count` is total over all texts and all
mode strings, but a mode outside Letters/Words/Sentences is silently
mapped to a primary count of 0 (with the digit count still computed)
instead of signalling an `InvalidMode` error. -/
theorem C6_unrecognized_mode_defaults (text : List Char) (mode : String)
    (h₁ : mode ≠ "Letters") (h₂ : mode ≠ "Words") (h₃ : mode ≠ "Sentences") :
    (update_count text mode).primaryCount = 0 ∧
      (update_count text mode).digitCount = (text.countP isDigitChar : Int) := by
  refine ⟨?_, digitCount_eq text mode⟩
  unfold update_count update_count_core
  simp [h₁, h₂, h₃]

/-- Witness for C6 at the concrete input of the counterexample. -/
theorem C6_unrecognized_mode_defaults_witness :
    (update_count ( "hello7".toList) "Bogus").primaryCount = 0 ∧
      (update_count ( "hello7".toList) "Bogus").digitCount =
        (( "hello7".toList).countP isDigitChar : Int) :=
  C6_unrecognized_mode_defaults ( "hello7".toList) "Bogus"
    (by decide) (by decide) (by decide)

/-- Claim C7: the primary count is non-negative for every mode and input,
the empty input yields primary count 0 and digit count 0 for every mode,
and clearing the text then recomputing yields 0 and 0 whatever the prior
text and mode. -/
theorem C7_nonneg_and_empty_zero :
    (∀ (text : List Char) (mode : String), 0 ≤ (update_count text mode).primaryCount) ∧
      (∀ mode : String, update_count [] mode = ⟨0, 0⟩) ∧
      (∀ (prior : List Char) (mode : String),
        update_count (clean_string prior) mode = ⟨0, 0⟩) := by
  have hnn : ∀ (text : List Char) (mode : String),
      0 ≤ (update_count text mode).primaryCount := by
    intro text mode
    show (0 : Int) ≤ (update_count_core (pyStrip text) mode).primaryCount
    unfold update_count_core
    simp only []
    split_ifs <;>
      first
        | exact le_refl (0 : Int)
        | exact Int.natCast_nonneg _
        | exact le_max_left (0 : Int) _
  exact ⟨hnn, fun mode => rfl, fun prior mode => rfl⟩

/-- Claim C8 counterexample: `revert_string` strips the text before
reversing, so applying it twice to a text with leading whitespace does
not return the original text. -/
theorem C8_counterexample_not_self_inverse :
    revert_string (revert_string ( " a".toList)) ≠ ( " a".toList) := by decide

/-- Claim C8 as amended: applying the reverse action twice returns the
stripped text when the strip is non-empty (hence the original text
exactly when it carries no surrounding whitespace), and leaves an
all-whitespace text unchanged. -/
theorem C8_revert_twice (text : List Char) :
    revert_string (revert_string text) =
      if (pyStrip text).isEmpty then text else pyStrip text := by
  have hgen : ∀ l : List Char, revert_string l =
      if (pyStrip l).isEmpty then l else (pyStrip l).reverse := fun l => rfl
  cases hx : pyStrip text with
  | nil =>
    rw [hgen (revert_string text), hgen text, hx]
    simp [hgen, hx]
  | cons c t =>
    have hp := pyStrip_reverse_pyStrip text
    rw [hx] at hp
    rw [hgen (revert_string text), hgen text, hx]
    simp only [List.isEmpty_cons, Bool.false_eq_true, if_false]
    rw [hp, List.reverse_reverse]
    have hne : ((c :: t).reverse).isEmpty = false := by simp [List.isEmpty_iff]
    rw [hne]
    simp

/-- Claim C9: every count is invariant under surrounding the input with
whitespace, since `update_count` strips the raw text first. -/
theorem C9_whitespace_invariance (text : List Char) (mode : String) (w₁ w₂ : List Char)
    (h₁ : ∀ c ∈ w₁, pyIsSpace c = true) (h₂ : ∀ c ∈ w₂, pyIsSpace c = true) :
    update_count (w₁ ++ text ++ w₂) mode = update_count text mode := by
  unfold update_count
  rw [pyStrip_sandwich h₁ h₂]

/-- Witness for C9 at a concrete padded input. -/
theorem C9_whitespace_invariance_witness :
    update_count ( "  ".toList ++ "Hi there.".toList ++ "\n".toList) "Sentences" =
      update_count ( "Hi there.".toList) "Sentences" :=
  C9_whitespace_invariance ( "Hi there.".toList) "Sentences"
    ( "  ".toList) ( "\n".toList) (by decide) (by decide)

/-- Claim C10: the Letters primary count and the digit count (in every
mode) are invariant under reversing the input, both being per-character
counts. -/
theorem C10_reversal_invariance (text : List Char) :
    (update_count text.reverse "Letters").primaryCount =
        (update_count text "Letters").primaryCount ∧
      (∀ mode : String, (update_count text.reverse mode).digitCount =
        (update_count text mode).digitCount) := by
  constructor
  · rw [letters_primary_eq, letters_primary_eq, List.countP_reverse]
  · intro mode
    rw [digitCount_eq, digitCount_eq, List.countP_reverse]

example : (update_count ( "3.14 is pi".toList) "Words").primaryCount = 3 := by decide
example : (update_count ( "123 456".toList) "Words").primaryCount = 0 := by decide
example : (update_count ( "abc123XYZ".toList) "Letters").primaryCount = 6 := by decide
example : (update_count ( "Hello world.".toList) "Sentences").primaryCount = 1 := by decide
example : (update_count ( "Hello world".toList) "Sentences").primaryCount = 0 := by decide
example : (update_count ( "One. Two. Three".toList) "Sentences").primaryCount = 2 := by decide
example : (update_count ( "Wait... really?!".toList) "Sentences").primaryCount = 2 := by decide

end TextMetrics
